import Mathlib

/-!
Verification of the persona-orchestration engine of `discord_entities`:
a shallow embedding of the channel state machine, mention resolution,
registry loading and the conversation scheduler, with theorems checking
the specification's claims against the embedded code.
-/

namespace DiscordEntities

set_option maxRecDepth 40000

/-- Modelled from the spec: the persona value record (the `Entity` class of
`discord_entities/entity.py` is not among the given sources; only the two
fields the orchestration code reads are carried: the unique handle and the
display name). -/
structure Entity where
  handle : String
  name : String
deriving DecidableEq, Repr, Inhabited

/-- The codepoint ranges (inclusive) the regex class `\w` of CPython's
`re` module matches with `re.UNICODE` — equal to `str.isalnum()` plus the
underscore: letters of every script, digits and other numerals. Obtained by
testing every Unicode scalar value against the `\w` pattern (CPython 3.11
Unicode tables) and compressing the matches into ranges. -/
def wordRanges : List (Nat × Nat) :=
  [(48, 57), (65, 90), (95, 95), (97, 122), (170, 170), (178, 179), (181, 181), (185, 186),
   (188, 190), (192, 214), (216, 246), (248, 705), (710, 721), (736, 740), (748, 748), (750, 750),
   (880, 884), (886, 887), (890, 893), (895, 895), (902, 902), (904, 906), (908, 908), (910, 929),
   (931, 1013), (1015, 1153), (1162, 1327), (1329, 1366), (1369, 1369), (1376, 1416),
   (1488, 1514), (1519, 1522), (1568, 1610), (1632, 1641), (1646, 1647), (1649, 1747),
   (1749, 1749), (1765, 1766), (1774, 1788), (1791, 1791), (1808, 1808), (1810, 1839),
   (1869, 1957), (1969, 1969), (1984, 2026), (2036, 2037), (2042, 2042), (2048, 2069),
   (2074, 2074), (2084, 2084), (2088, 2088), (2112, 2136), (2144, 2154), (2160, 2183),
   (2185, 2190), (2208, 2249), (2308, 2361), (2365, 2365), (2384, 2384), (2392, 2401),
   (2406, 2415), (2417, 2432), (2437, 2444), (2447, 2448), (2451, 2472), (2474, 2480),
   (2482, 2482), (2486, 2489), (2493, 2493), (2510, 2510), (2524, 2525), (2527, 2529),
   (2534, 2545), (2548, 2553), (2556, 2556), (2565, 2570), (2575, 2576), (2579, 2600),
   (2602, 2608), (2610, 2611), (2613, 2614), (2616, 2617), (2649, 2652), (2654, 2654),
   (2662, 2671), (2674, 2676), (2693, 2701), (2703, 2705), (2707, 2728), (2730, 2736),
   (2738, 2739), (2741, 2745), (2749, 2749), (2768, 2768), (2784, 2785), (2790, 2799),
   (2809, 2809), (2821, 2828), (2831, 2832), (2835, 2856), (2858, 2864), (2866, 2867),
   (2869, 2873), (2877, 2877), (2908, 2909), (2911, 2913), (2918, 2927), (2929, 2935),
   (2947, 2947), (2949, 2954), (2958, 2960), (2962, 2965), (2969, 2970), (2972, 2972),
   (2974, 2975), (2979, 2980), (2984, 2986), (2990, 3001), (3024, 3024), (3046, 3058),
   (3077, 3084), (3086, 3088), (3090, 3112), (3114, 3129), (3133, 3133), (3160, 3162),
   (3165, 3165), (3168, 3169), (3174, 3183), (3192, 3198), (3200, 3200), (3205, 3212),
   (3214, 3216), (3218, 3240), (3242, 3251), (3253, 3257), (3261, 3261), (3293, 3294),
   (3296, 3297), (3302, 3311), (3313, 3314), (3332, 3340), (3342, 3344), (3346, 3386),
   (3389, 3389), (3406, 3406), (3412, 3414), (3416, 3425), (3430, 3448), (3450, 3455),
   (3461, 3478), (3482, 3505), (3507, 3515), (3517, 3517), (3520, 3526), (3558, 3567),
   (3585, 3632), (3634, 3635), (3648, 3654), (3664, 3673), (3713, 3714), (3716, 3716),
   (3718, 3722), (3724, 3747), (3749, 3749), (3751, 3760), (3762, 3763), (3773, 3773),
   (3776, 3780), (3782, 3782), (3792, 3801), (3804, 3807), (3840, 3840), (3872, 3891),
   (3904, 3911), (3913, 3948), (3976, 3980), (4096, 4138), (4159, 4169), (4176, 4181),
   (4186, 4189), (4193, 4193), (4197, 4198), (4206, 4208), (4213, 4225), (4238, 4238),
   (4240, 4249), (4256, 4293), (4295, 4295), (4301, 4301), (4304, 4346), (4348, 4680),
   (4682, 4685), (4688, 4694), (4696, 4696), (4698, 4701), (4704, 4744), (4746, 4749),
   (4752, 4784), (4786, 4789), (4792, 4798), (4800, 4800), (4802, 4805), (4808, 4822),
   (4824, 4880), (4882, 4885), (4888, 4954), (4969, 4988), (4992, 5007), (5024, 5109),
   (5112, 5117), (5121, 5740), (5743, 5759), (5761, 5786), (5792, 5866), (5870, 5880),
   (5888, 5905), (5919, 5937), (5952, 5969), (5984, 5996), (5998, 6000), (6016, 6067),
   (6103, 6103), (6108, 6108), (6112, 6121), (6128, 6137), (6160, 6169), (6176, 6264),
   (6272, 6276), (6279, 6312), (6314, 6314), (6320, 6389), (6400, 6430), (6470, 6509),
   (6512, 6516), (6528, 6571), (6576, 6601), (6608, 6618), (6656, 6678), (6688, 6740),
   (6784, 6793), (6800, 6809), (6823, 6823), (6917, 6963), (6981, 6988), (6992, 7001),
   (7043, 7072), (7086, 7141), (7168, 7203), (7232, 7241), (7245, 7293), (7296, 7304),
   (7312, 7354), (7357, 7359), (7401, 7404), (7406, 7411), (7413, 7414), (7418, 7418),
   (7424, 7615), (7680, 7957), (7960, 7965), (7968, 8005), (8008, 8013), (8016, 8023),
   (8025, 8025), (8027, 8027), (8029, 8029), (8031, 8061), (8064, 8116), (8118, 8124),
   (8126, 8126), (8130, 8132), (8134, 8140), (8144, 8147), (8150, 8155), (8160, 8172),
   (8178, 8180), (8182, 8188), (8304, 8305), (8308, 8313), (8319, 8329), (8336, 8348),
   (8450, 8450), (8455, 8455), (8458, 8467), (8469, 8469), (8473, 8477), (8484, 8484),
   (8486, 8486), (8488, 8488), (8490, 8493), (8495, 8505), (8508, 8511), (8517, 8521),
   (8526, 8526), (8528, 8585), (9312, 9371), (9450, 9471), (10102, 10131), (11264, 11492),
   (11499, 11502), (11506, 11507), (11517, 11517), (11520, 11557), (11559, 11559), (11565, 11565),
   (11568, 11623), (11631, 11631), (11648, 11670), (11680, 11686), (11688, 11694), (11696, 11702),
   (11704, 11710), (11712, 11718), (11720, 11726), (11728, 11734), (11736, 11742), (11823, 11823),
   (12293, 12295), (12321, 12329), (12337, 12341), (12344, 12348), (12353, 12438), (12445, 12447),
   (12449, 12538), (12540, 12543), (12549, 12591), (12593, 12686), (12690, 12693), (12704, 12735),
   (12784, 12799), (12832, 12841), (12872, 12879), (12881, 12895), (12928, 12937), (12977, 12991),
   (13312, 19903), (19968, 42124), (42192, 42237), (42240, 42508), (42512, 42539), (42560, 42606),
   (42623, 42653), (42656, 42735), (42775, 42783), (42786, 42888), (42891, 42954), (42960, 42961),
   (42963, 42963), (42965, 42969), (42994, 43009), (43011, 43013), (43015, 43018), (43020, 43042),
   (43056, 43061), (43072, 43123), (43138, 43187), (43216, 43225), (43250, 43255), (43259, 43259),
   (43261, 43262), (43264, 43301), (43312, 43334), (43360, 43388), (43396, 43442), (43471, 43481),
   (43488, 43492), (43494, 43518), (43520, 43560), (43584, 43586), (43588, 43595), (43600, 43609),
   (43616, 43638), (43642, 43642), (43646, 43695), (43697, 43697), (43701, 43702), (43705, 43709),
   (43712, 43712), (43714, 43714), (43739, 43741), (43744, 43754), (43762, 43764), (43777, 43782),
   (43785, 43790), (43793, 43798), (43808, 43814), (43816, 43822), (43824, 43866), (43868, 43881),
   (43888, 44002), (44016, 44025), (44032, 55203), (55216, 55238), (55243, 55291), (63744, 64109),
   (64112, 64217), (64256, 64262), (64275, 64279), (64285, 64285), (64287, 64296), (64298, 64310),
   (64312, 64316), (64318, 64318), (64320, 64321), (64323, 64324), (64326, 64433), (64467, 64829),
   (64848, 64911), (64914, 64967), (65008, 65019), (65136, 65140), (65142, 65276), (65296, 65305),
   (65313, 65338), (65345, 65370), (65382, 65470), (65474, 65479), (65482, 65487), (65490, 65495),
   (65498, 65500), (65536, 65547), (65549, 65574), (65576, 65594), (65596, 65597), (65599, 65613),
   (65616, 65629), (65664, 65786), (65799, 65843), (65856, 65912), (65930, 65931), (66176, 66204),
   (66208, 66256), (66273, 66299), (66304, 66339), (66349, 66378), (66384, 66421), (66432, 66461),
   (66464, 66499), (66504, 66511), (66513, 66517), (66560, 66717), (66720, 66729), (66736, 66771),
   (66776, 66811), (66816, 66855), (66864, 66915), (66928, 66938), (66940, 66954), (66956, 66962),
   (66964, 66965), (66967, 66977), (66979, 66993), (66995, 67001), (67003, 67004), (67072, 67382),
   (67392, 67413), (67424, 67431), (67456, 67461), (67463, 67504), (67506, 67514), (67584, 67589),
   (67592, 67592), (67594, 67637), (67639, 67640), (67644, 67644), (67647, 67669), (67672, 67702),
   (67705, 67742), (67751, 67759), (67808, 67826), (67828, 67829), (67835, 67867), (67872, 67897),
   (67968, 68023), (68028, 68047), (68050, 68096), (68112, 68115), (68117, 68119), (68121, 68149),
   (68160, 68168), (68192, 68222), (68224, 68255), (68288, 68295), (68297, 68324), (68331, 68335),
   (68352, 68405), (68416, 68437), (68440, 68466), (68472, 68497), (68521, 68527), (68608, 68680),
   (68736, 68786), (68800, 68850), (68858, 68899), (68912, 68921), (69216, 69246), (69248, 69289),
   (69296, 69297), (69376, 69415), (69424, 69445), (69457, 69460), (69488, 69505), (69552, 69579),
   (69600, 69622), (69635, 69687), (69714, 69743), (69745, 69746), (69749, 69749), (69763, 69807),
   (69840, 69864), (69872, 69881), (69891, 69926), (69942, 69951), (69956, 69956), (69959, 69959),
   (69968, 70002), (70006, 70006), (70019, 70066), (70081, 70084), (70096, 70106), (70108, 70108),
   (70113, 70132), (70144, 70161), (70163, 70187), (70272, 70278), (70280, 70280), (70282, 70285),
   (70287, 70301), (70303, 70312), (70320, 70366), (70384, 70393), (70405, 70412), (70415, 70416),
   (70419, 70440), (70442, 70448), (70450, 70451), (70453, 70457), (70461, 70461), (70480, 70480),
   (70493, 70497), (70656, 70708), (70727, 70730), (70736, 70745), (70751, 70753), (70784, 70831),
   (70852, 70853), (70855, 70855), (70864, 70873), (71040, 71086), (71128, 71131), (71168, 71215),
   (71236, 71236), (71248, 71257), (71296, 71338), (71352, 71352), (71360, 71369), (71424, 71450),
   (71472, 71483), (71488, 71494), (71680, 71723), (71840, 71922), (71935, 71942), (71945, 71945),
   (71948, 71955), (71957, 71958), (71960, 71983), (71999, 71999), (72001, 72001), (72016, 72025),
   (72096, 72103), (72106, 72144), (72161, 72161), (72163, 72163), (72192, 72192), (72203, 72242),
   (72250, 72250), (72272, 72272), (72284, 72329), (72349, 72349), (72368, 72440), (72704, 72712),
   (72714, 72750), (72768, 72768), (72784, 72812), (72818, 72847), (72960, 72966), (72968, 72969),
   (72971, 73008), (73030, 73030), (73040, 73049), (73056, 73061), (73063, 73064), (73066, 73097),
   (73112, 73112), (73120, 73129), (73440, 73458), (73648, 73648), (73664, 73684), (73728, 74649),
   (74752, 74862), (74880, 75075), (77712, 77808), (77824, 78894), (82944, 83526), (92160, 92728),
   (92736, 92766), (92768, 92777), (92784, 92862), (92864, 92873), (92880, 92909), (92928, 92975),
   (92992, 92995), (93008, 93017), (93019, 93025), (93027, 93047), (93053, 93071), (93760, 93846),
   (93952, 94026), (94032, 94032), (94099, 94111), (94176, 94177), (94179, 94179),
   (94208, 100343), (100352, 101589), (101632, 101640), (110576, 110579), (110581, 110587),
   (110589, 110590), (110592, 110882), (110928, 110930), (110948, 110951), (110960, 111355),
   (113664, 113770), (113776, 113788), (113792, 113800), (113808, 113817), (119520, 119539),
   (119648, 119672), (119808, 119892), (119894, 119964), (119966, 119967), (119970, 119970),
   (119973, 119974), (119977, 119980), (119982, 119993), (119995, 119995), (119997, 120003),
   (120005, 120069), (120071, 120074), (120077, 120084), (120086, 120092), (120094, 120121),
   (120123, 120126), (120128, 120132), (120134, 120134), (120138, 120144), (120146, 120485),
   (120488, 120512), (120514, 120538), (120540, 120570), (120572, 120596), (120598, 120628),
   (120630, 120654), (120656, 120686), (120688, 120712), (120714, 120744), (120746, 120770),
   (120772, 120779), (120782, 120831), (122624, 122654), (123136, 123180), (123191, 123197),
   (123200, 123209), (123214, 123214), (123536, 123565), (123584, 123627), (123632, 123641),
   (124896, 124902), (124904, 124907), (124909, 124910), (124912, 124926), (124928, 125124),
   (125127, 125135), (125184, 125251), (125259, 125259), (125264, 125273), (126065, 126123),
   (126125, 126127), (126129, 126132), (126209, 126253), (126255, 126269), (126464, 126467),
   (126469, 126495), (126497, 126498), (126500, 126500), (126503, 126503), (126505, 126514),
   (126516, 126519), (126521, 126521), (126523, 126523), (126530, 126530), (126535, 126535),
   (126537, 126537), (126539, 126539), (126541, 126543), (126545, 126546), (126548, 126548),
   (126551, 126551), (126553, 126553), (126555, 126555), (126557, 126557), (126559, 126559),
   (126561, 126562), (126564, 126564), (126567, 126570), (126572, 126578), (126580, 126583),
   (126585, 126588), (126590, 126590), (126592, 126601), (126603, 126619), (126625, 126627),
   (126629, 126633), (126635, 126651), (127232, 127244), (130032, 130041), (131072, 173791),
   (173824, 177976), (177984, 178205), (178208, 183969), (183984, 191456), (194560, 195101),
   (196608, 201546)]

/-- The regex class `\w` of `re` with `re.UNICODE`: membership of the
codepoint in `wordRanges`. -/
def isWordChar (c : Char) : Bool :=
  wordRanges.any (fun r => r.1 ≤ c.toNat && c.toNat ≤ r.2)

/-- The codepoints the regex class `\s` of `re` matches with `re.UNICODE`
— the same set `str.isspace()` holds on, which also drives `str.split()`
and `str.strip()`: the ASCII whitespace and separator controls plus the
Unicode space characters. -/
def spaceCodes : List Nat :=
  [9, 10, 11, 12, 13, 28, 29, 30, 31, 32, 133, 160, 5760, 8192, 8193, 8194, 8195, 8196, 8197, 8198, 8199, 8200, 8201, 8202, 8232, 8233, 8239, 8287, 12288]

/-- The regex class `\s` of `re` with `re.UNICODE` (also the whitespace
set of `str.split()` and `str.strip()`). -/
def isSpaceChar (c : Char) : Bool :=
  spaceCodes.contains c.toNat

/-- `needle` is a leading segment of `hay` (char-list form of Python's
`str.startswith`, used to build the substring test below). -/
def startsWithChars : List Char → List Char → Bool
  | [], _ => true
  | _ :: _, [] => false
  | a :: as, b :: bs => a == b && startsWithChars as bs

/-- Python's `needle in hay` substring test on char lists. -/
def hasSubstr (needle : List Char) : List Char → Bool
  | [] => startsWithChars needle []
  | b :: bs => startsWithChars needle (b :: bs) || hasSubstr needle bs

/-- `re.findall(r"@(\w+)", s)` on a char list: every maximal nonempty run of
word characters that directly follows an `@`, scanning left to right.
(`re` resumes past the matched token; since a token never contains `@`,
resuming right after the `@` finds the same matches, which keeps the
recursion structural.) -/
def pseudoMentionsAux : List Char → List (List Char)
  | [] => []
  | c :: rest =>
    if c == '@' then
      match rest.takeWhile isWordChar with
      | [] => pseudoMentionsAux rest
      | tok => tok :: pseudoMentionsAux rest
    else pseudoMentionsAux rest

/-- The `@word` tokens of a message, as strings. -/
def pseudoMentions (s : String) : List String :=
  (pseudoMentionsAux s.toList).map List.asString

/-- Python's `str.lower()` (on the ASCII range; the code's handles and the
spec's examples stay in it), written over the character list so that it
reduces definitionally. -/
def strLower (s : String) : String :=
  (s.toList.map Char.toLower).asString

/-- `EntityGroup.find_entity_by_mention`: lower the message, collect the
`@word` tokens, then walk the registry in its iteration order appending each
entity whose `@handle` occurs verbatim in the lowered text, or whose handle
is one of the tokens and which was not already collected (the Python
condition `A or B and C` parses as `A or (B and C)`). -/
def find_entity_by_mention (entitys : List (String × Entity)) (message_content : String) :
    List Entity :=
  let message_lower := strLower message_content
  let pseudo := (pseudoMentions message_lower).map strLower
  entitys.foldl
    (fun acc he =>
      if hasSubstr ("@" ++ strLower he.1).toList message_lower.toList ||
          (pseudo.contains (strLower he.1) && !acc.contains he.2) then
        acc ++ [he.2]
      else acc)
    []

/-- The scanner behind `splitWs`: `cur` is the reversed run of non-space
characters read since the last break; a space (or the end) flushes it. -/
def splitWsAux : List Char → List Char → List (List Char)
  | [], cur => if cur = [] then [] else [cur.reverse]
  | c :: rest, cur =>
    if isSpaceChar c then
      if cur = [] then splitWsAux rest [] else cur.reverse :: splitWsAux rest []
    else splitWsAux rest (c :: cur)

/-- The whitespace-splitting of Python's `str.split()`: maximal runs of
non-space characters, empty pieces dropped. -/
def splitWs (l : List Char) : List (List Char) :=
  splitWsAux l []

/-- `" ".join(pieces)` on char lists. -/
def joinSpace : List (List Char) → List Char
  | [] => []
  | [t] => t
  | t :: rest => t ++ ' ' :: joinSpace rest

/-- `EntityBot._normalize_name`: `re.sub(r"[^\w\s]", "", name)` keeps exactly
the word and space characters; then `" ".join(normalized.split())` collapses
whitespace runs; the final `.strip()` is kept as dropping leading and
trailing spaces. -/
def normalize_name (name : String) : String :=
  let filtered := name.toList.filter (fun c => isWordChar c || isSpaceChar c)
  let joined := joinSpace (splitWs filtered)
  ((joined.dropWhile (· == ' ')).reverse.dropWhile (· == ' ')).reverse.asString

/-- The `Channel` state of `bot.py`: the Unix timestamp of the last `!stop`
(`0` on creation) and the ordered list of active chat participants. Time is
an explicit `Int` parameter standing for `time.time()`. -/
structure Channel where
  last_stop_time : Int := 0
  chat_participants : List String := []
deriving DecidableEq, Repr

/-- `Channel.is_stopped`: within 30 seconds of the last stop. -/
def Channel.is_stopped (ch : Channel) (now : Int) : Bool :=
  now - ch.last_stop_time < 30

/-- `Channel.stop`: record the stop time and clear the participants. -/
def Channel.stop (ch : Channel) (now : Int) : Channel :=
  { ch with last_stop_time := now, chat_participants := [] }

/-- `Channel.add_chat_participant`. -/
def Channel.add_chat_participant (ch : Channel) (handle : String) : Channel :=
  if handle ∈ ch.chat_participants then ch
  else { ch with chat_participants := ch.chat_participants ++ [handle] }

/-- `Channel.remove_chat_participant` (`list.remove` drops the first copy). -/
def Channel.remove_chat_participant (ch : Channel) (handle : String) : Channel :=
  { ch with chat_participants := ch.chat_participants.erase handle }

/-- `Channel.clear_chat_participants`. -/
def Channel.clear_chat_participants (ch : Channel) : Channel :=
  { ch with chat_participants := [] }

/-- `Channel.is_in_chat`. -/
def Channel.is_in_chat (ch : Channel) (handle : String) : Bool :=
  handle ∈ ch.chat_participants

/-- The per-message inputs of `EntityBot.on_message` that the
mention-resolution logic reads: the message text, whether
`self.user.mentioned_in(message)` holds, whether the author is a bot
account, whether the message carries a `webhook_id`, whether the author's
discriminator is `"0000"`, and the persona handle identified from the
referenced message when the event is a reply to one (`None` otherwise). -/
structure MsgEvent where
  content : String
  bot_mentioned : Bool
  author_is_bot : Bool
  has_webhook : Bool
  discriminator_is_0000 : Bool
  replied_entity : Option String
deriving Repr

/-- `EntityBot.is_direct_user_mention`: the bot is mentioned, by a non-bot
author, not through a webhook. -/
def is_direct_user_mention (ev : MsgEvent) : Bool :=
  ev.bot_mentioned && !ev.author_is_bot && !ev.has_webhook

/-- Registry lookup, mirroring `dict.get` on the handle→entity mapping. -/
def lookupEntity (entitys : List (String × Entity)) (handle : String) : Option Entity :=
  (entitys.find? (fun he => he.1 == handle)).map (·.2)

/-- The dedup-by-handle pass of `on_message` (unique entities in first-seen
order, keyed by handle). -/
def dedupByHandle (l : List Entity) : List Entity :=
  (l.foldl
    (fun acc e => if acc.2.contains e.handle then acc else (acc.1 ++ [e], acc.2 ++ [e.handle]))
    ([], [])).1

/-- The mention-resolution portion of `EntityBot.on_message`
(`bot.py` lines 314-423), as a pure function from the event, registry and
channel state to the list of entities that will be activated and the
blocked flag: collect pseudo-mentions; prepend the replied-to entity; for a
proxy (webhook, discriminator `"0000"`) author append its mentions of other
entities; then, when there is any candidate or a direct mention, return
nothing with `blocked = true` whenever the channel is stopped, otherwise
filter out in-chat entities unless the event is a direct user mention, fall
back to a random entity (index `seed` into the registry values) on a direct
mention with no candidates, and dedup by handle. -/
def resolve_mentions (entitys : List (String × Entity)) (ev : MsgEvent)
    (ch : Channel) (now : Int) (seed : Nat) : List Entity × Bool :=
  let is_direct_mention := ev.bot_mentioned
  let mentioned : List Entity := find_entity_by_mention entitys ev.content
  let mentioned : List Entity :=
    match ev.replied_entity with
    | none => mentioned
    | some h =>
      match lookupEntity entitys h with
      | none => mentioned
      | some e => if mentioned.contains e then mentioned else e :: mentioned
  let mentioned :=
    if ev.has_webhook && ev.discriminator_is_0000 then
      (find_entity_by_mention entitys ev.content).foldl
        (fun (acc : List Entity) e => if acc.contains e then acc else acc ++ [e]) mentioned
    else mentioned
  if mentioned ≠ [] ∨ is_direct_mention then
    if ch.is_stopped now then ([], true)
    else
      let mentioned :=
        if !is_direct_user_mention ev then
          mentioned.filter (fun e => !ch.is_in_chat e.handle)
        else mentioned
      let mentioned :=
        if mentioned = [] ∧ is_direct_mention ∧ entitys ≠ [] then
          [(entitys.map (·.2)).getD (seed % entitys.length) default]
        else mentioned
      (dedupByHandle mentioned, false)
  else ([], false)

/-- `max(1, (queue_size + 1) // 2)` of `cmd_entity_chat`: the size of the
front segment a speaker is drawn from. -/
def half_size (queue_size : Nat) : Nat :=
  max 1 ((queue_size + 1) / 2)

/-- `random.randint(lo, hi)` under a seed: `lo + seed % (hi + 1 - lo)`, so
that a uniformly distributed seed yields a uniformly distributed value of
the inclusive range. -/
def randint (lo hi seed : Nat) : Nat :=
  lo + seed % (hi + 1 - lo)

/-- The speaker-index draw of one `cmd_entity_chat` turn: for a queue of
more than one entity, `randint(0, half_size - 1)`; otherwise index 0. -/
def selected_index (queue_size seed : Nat) : Nat :=
  if 1 < queue_size then randint 0 (half_size queue_size - 1) seed else 0

/-- One scheduler turn of `cmd_entity_chat`: draw the index, read the
speaker, and move it from its position to the tail of the queue. -/
def chat_turn {α : Type} [Inhabited α] (queue : List α) (seed : Nat) : α × List α :=
  let i := selected_index queue.length seed
  let speaker := queue.getD i default
  (speaker, queue.eraseIdx i ++ [speaker])

/-- A whole scheduled run: one `chat_turn` per seed, returning the speakers
in order and the final queue. -/
def chat_run {α : Type} [Inhabited α] (queue : List α) : List Nat → List α × List α
  | [] => ([], queue)
  | s :: rest =>
    let t := chat_turn queue s
    let r := chat_run t.2 rest
    (t.1 :: r.1, r.2)

/-- What one turn of the `cmd_entity_chat` loop can do once it reaches the
activation: succeed, fail with the failure caught by the per-turn handler
(the loop continues), or raise an exception that escapes the handler
(aborting the loop). -/
inductive TurnEvent where
  | ok
  | caughtError
  | escape
deriving DecidableEq, Repr

/-- How a session's turn loop ended. -/
inductive SessionOutcome where
  | completed
  | stoppedAbort
  | raised
deriving DecidableEq, Repr

/-- The turn loop inside the `try` of `cmd_entity_chat`: before each turn
the environment may mutate the channel (modelling a concurrent `!stop`) and
the clock advances; a stopped channel aborts the loop, an escaping
exception aborts it, and anything else proceeds to the next turn. Returns
the outcome, the channel as last observed, and the number of turns that
reached their activation. -/
def runTurns (env : Nat → Channel → Channel) (clock : Nat → Int)
    (events : Nat → TurnEvent) (ch : Channel) :
    Nat → Nat → SessionOutcome × Channel × Nat
  | _, 0 => (.completed, ch, 0)
  | t, n + 1 =>
    let ch := env t ch
    if ch.is_stopped (clock t) then (.stoppedAbort, ch, 0)
    else
      match events t with
      | .escape => (.raised, ch, 1)
      | _ =>
        let r := runTurns env clock events ch (t + 1) n
        (r.1, r.2.1, r.2.2 + 1)

/-- `cmd_entity_chat` after argument validation: add every participant to
the channel's active set, run the turn loop, and — in the `finally` — clear
the participants whatever the loop's outcome was. -/
def entity_chat_session (handles : List String) (num_turns : Nat)
    (env : Nat → Channel → Channel) (clock : Nat → Int) (events : Nat → TurnEvent)
    (ch : Channel) : SessionOutcome × Channel × Nat :=
  let ch := handles.foldl Channel.add_chat_participant ch
  let r := runTurns env clock events ch 0 num_turns
  (r.1, r.2.1.clear_chat_participants, r.2.2)

/-- The `cmd_speak` loop over the validated entities: before each entity a
stop check (aborting the whole command), then an activation whose failure
is caught by the per-entity handler unless the handler itself raises.
Returns the outcome and the number of entities whose activation was
reached. -/
def speak_sequence (env : Nat → Channel → Channel) (clock : Nat → Int)
    (events : Nat → TurnEvent) (ch : Channel) :
    Nat → Nat → SessionOutcome × Nat
  | _, 0 => (.completed, 0)
  | t, n + 1 =>
    let ch := env t ch
    if ch.is_stopped (clock t) then (.stoppedAbort, 0)
    else
      match events t with
      | .escape => (.raised, 1)
      | _ =>
        let r := speak_sequence env clock events ch (t + 1) n
        (r.1, r.2 + 1)

/-- One successfully parsed definition file as `load_from_directory` sees
it: the lowercased base filename (`file_path.stem.lower()`) and the entity
it parsed to. The list is taken after `config_files.sort()`, so its order
is the sorted order. -/
structure DefFile where
  stem : String
  entity : Entity
deriving DecidableEq, Repr

/-- A file is classified "generated" when its base filename equals the
entity's lowercased handle. -/
def DefFile.is_generated (f : DefFile) : Bool :=
  f.stem == strLower f.entity.handle

/-- Python-dict insertion on an association list: update the value in place
(at the key's position) when the key is present, else append the pair. -/
def dictInsert : List (String × α) → String → α → List (String × α)
  | [], k, v => [(k, v)]
  | p :: rest, k, v =>
    if p.1 == k then (k, v) :: rest else p :: dictInsert rest k v

/-- Association-list lookup (`dict.get`). -/
def dictLookup (m : List (String × α)) (k : String) : Option α :=
  (m.find? (fun p => p.1 == k)).map (·.2)

/-- The conflict-resolution decision of `load_from_directory`: an incoming
generated file replaces a manual holder, a manual file never replaces a
generated holder, and files of the same category always replace (the later
file in sort order wins). -/
def should_replace (existing_is_generated is_generated_file : Bool) : Bool :=
  if is_generated_file && !existing_is_generated then true
  else if !is_generated_file && existing_is_generated then false
  else true

/-- One step of the loading pass: the first file for a handle is kept
outright, a later file replaces the holder exactly when `should_replace`
says so. The state maps each handle to its current entity and whether the
winning file was generated. -/
def loadStep (st : List (String × (Entity × Bool))) (f : DefFile) :
    List (String × (Entity × Bool)) :=
  match dictLookup st f.entity.handle with
  | none => dictInsert st f.entity.handle (f.entity, f.is_generated)
  | some (_, existing_is_generated) =>
    if should_replace existing_is_generated f.is_generated then
      dictInsert st f.entity.handle (f.entity, f.is_generated)
    else st

/-- `EntityGroup.load_from_directory` restricted to what it keeps: fold the
sorted, successfully parsed files through the conflict resolution and read
off the handle→entity mapping (`entities_by_handle`, added to the group in
dict order). -/
def load_from_directory (files : List DefFile) : List (String × Entity) :=
  (files.foldl loadStep []).map (fun p => (p.1, p.2.1))

/-- Modelled from the spec: the winner the claim describes for one handle,
among the files that map to that handle, in processing order — the last
generated file when a generated file exists, otherwise the last file. -/
def claimedWinner (files : List DefFile) (handle : String) : Option Entity :=
  let mine := files.filter (fun f => f.entity.handle == handle)
  match (mine.filter DefFile.is_generated).getLast? with
  | some g => some g.entity
  | none => (mine.getLast?).map (·.entity)

/-- Python's `text[:n]` for an `Int` bound: a negative bound counts from
the end. -/
def pySliceTo (l : List Char) (n : Int) : List Char :=
  if n < 0 then l.take (l.length - (-n).toNat) else l.take n.toNat

/-- `ghosts/utils.py shorten_str`: a string within `max_length` is returned
unchanged; a longer one is cut to `max_length - 6` characters and given the
`" [...]"` suffix. -/
def shorten_str (text : String) (max_length : Nat := 1900) : String :=
  if text.length ≤ max_length then text
  else (pySliceTo text.toList ((max_length : Int) - (" [...]".length : Nat))).asString
    ++ " [...]"

/-- C7: `stop` leaves the channel stopped at that instant with no active
participants; `is_stopped` holds exactly while fewer than 30 seconds have
passed since the last stop, so the state decays to Active by time alone;
and a newly created channel (time at least 30, as any real clock is) is
Active with no participants. -/
theorem c7_channel_stop_and_decay (ch : Channel) (t now : Int) (hclock : 30 ≤ now) :
    ((ch.stop t).is_stopped t = true ∧ (ch.stop t).chat_participants = []) ∧
    (∀ (c : Channel) (n : Int), c.is_stopped n = true ↔ n - c.last_stop_time < 30) ∧
    (∀ (c : Channel) (n : Int), c.last_stop_time + 30 ≤ n → c.is_stopped n = false) ∧
    ((⟨0, []⟩ : Channel).is_stopped now = false ∧
      (⟨0, []⟩ : Channel).chat_participants = []) := by
  refine ⟨⟨?_, rfl⟩, fun c n => ?_, fun c n h => ?_, ?_, rfl⟩
  · simp [Channel.stop, Channel.is_stopped]
  · simp [Channel.is_stopped]
  · simp [Channel.is_stopped]; omega
  · simp [Channel.is_stopped]; omega

/-- C7 witness: the channel-state theorem applied at a concrete stop time
and clock. -/
theorem c7_witness :
    (30 : Int) ≤ 100 ∧
    ((((⟨0, []⟩ : Channel).stop 50).is_stopped 50 = true ∧
        ((⟨0, []⟩ : Channel).stop 50).chat_participants = []) ∧
      (∀ (c : Channel) (n : Int), c.is_stopped n = true ↔ n - c.last_stop_time < 30) ∧
      (∀ (c : Channel) (n : Int), c.last_stop_time + 30 ≤ n → c.is_stopped n = false) ∧
      ((⟨0, []⟩ : Channel).is_stopped 100 = false ∧
        (⟨0, []⟩ : Channel).chat_participants = [])) :=
  ⟨by decide, c7_channel_stop_and_decay ⟨0, []⟩ 50 100 (by decide)⟩

/-- C10: with a limit of at least the 6-character suffix, `shorten_str`
returns a short enough string unchanged, cuts a longer one to a prefix
followed by `" [...]"` with total length exactly the limit, and never
exceeds the limit. -/
theorem c10_shorten_str (text : String) (max_length : Nat) (h : 6 ≤ max_length) :
    (text.length ≤ max_length → shorten_str text max_length = text) ∧
    (max_length < text.length →
      shorten_str text max_length =
        (text.toList.take (max_length - 6)).asString ++ " [...]" ∧
      (shorten_str text max_length).length = max_length) ∧
    (shorten_str text max_length).length ≤ max_length := by
  by_cases hle : text.length ≤ max_length
  · refine ⟨fun _ => ?_, fun hlt => absurd hlt (by omega), ?_⟩
    · simp [shorten_str, hle]
    · simp [shorten_str, hle]
  · have hlt : max_length < text.length := by omega
    have hs : (" [...]" : String).length = 6 := rfl
    have hnneg : ¬ ((max_length : Int) - ((" [...]" : String).length : Nat) < 0) := by
      rw [hs]; omega
    have hform : shorten_str text max_length =
        (text.toList.take (max_length - 6)).asString ++ " [...]" := by
      rw [shorten_str, if_neg hle, pySliceTo, if_neg hnneg, hs]
      have hcast : ((max_length : Int) - ((6 : Nat) : Int)).toNat = max_length - 6 := by
        omega
      rw [hcast]
    have hlen : (shorten_str text max_length).length = max_length := by
      rw [hform]
      have : text.length = text.toList.length := rfl
      simp [String.length_append, List.length_take]
      omega
    exact ⟨fun hc => by omega, fun _ => ⟨hform, hlen⟩, by omega⟩

/-- C10 witness: the shortening theorem applied to a ten-character string
with limit 8. -/
theorem c10_witness :
    6 ≤ 8 ∧ shorten_str "0123456789" 8 = "01 [...]" ∧
    (shorten_str "0123456789" 8).length = 8 :=
  ⟨by decide,
    by
      have h := (c10_shorten_str "0123456789" 8 (by decide)).2.1 (by decide)
      exact ⟨by rw [h.1]; rfl, h.2⟩⟩

/-- C3 counterexample: at queue length 2 the code's front-segment size
`max(1, (k+1) // 2)` is 1, not the claimed `max(1, ceil((k+1)/2)) = 2`. -/
theorem c3_counterexample : ¬ (half_size 2 = max 1 ((2 + 1 + 1) / 2)) := by decide

/-- C3 amended: for a queue of length greater than 1 the speaker index is
drawn uniformly from `[0, half)` with `half = max(1, floor((k+1)/2))` (the
code's `(k+1) // 2`): every draw lands below `half_size k`, each value in
that interval is hit by exactly one seed per period of the generator, and a
queue of length 1 always yields index 0. -/
theorem c3_speaker_index_draw (k : Nat) (hk : 1 < k) :
    (∀ seed : Nat, selected_index k seed < half_size k) ∧
    (∀ i < half_size k,
      ((Finset.range (half_size k)).filter (fun s => selected_index k s = i)).card = 1) ∧
    (∀ seed : Nat, selected_index 1 seed = 0) := by
  have hpos : 0 < half_size k := by simp [half_size]
  have hsel : ∀ seed : Nat, selected_index k seed = seed % half_size k := by
    intro seed
    simp only [selected_index, if_pos hk, randint]
    have : half_size k - 1 + 1 - 0 = half_size k := by omega
    rw [this]
    omega
  refine ⟨fun seed => ?_, fun i hi => ?_, fun seed => by simp [selected_index]⟩
  · rw [hsel]; exact Nat.mod_lt _ hpos
  · have : (Finset.range (half_size k)).filter (fun s => selected_index k s = i) =
        (Finset.range (half_size k)).filter (fun s => s = i) := by
      apply Finset.filter_congr
      intro s hs
      rw [Finset.mem_range] at hs
      rw [hsel, Nat.mod_eq_of_lt hs]
    rw [this, Finset.filter_eq']
    simp [Finset.mem_range.mpr hi]

/-- C3 witness: the amended draw theorem applied at queue length 3
(seed 5 lands below the front size 2; index 1 is hit exactly once per
period). -/
theorem c3_witness :
    1 < 3 ∧ selected_index 3 5 < half_size 3 ∧
    ((Finset.range (half_size 3)).filter (fun s => selected_index 3 s = 1)).card = 1 :=
  ⟨by decide, (c3_speaker_index_draw 3 (by decide)).1 5,
    (c3_speaker_index_draw 3 (by decide)).2.1 1 (by decide)⟩

/-- C4 counterexample: a session started with the same persona listed twice
(`!chat a a`) has a queue of length 2 whose two turns both select that
persona, so consecutive turns are not distinct as the claim states. -/
theorem c4_counterexample :
    1 < ([⟨"a", "A"⟩, ⟨"a", "A"⟩] : List Entity).length ∧
    (chat_run ([⟨"a", "A"⟩, ⟨"a", "A"⟩] : List Entity) [0, 0]).1 =
      [⟨"a", "A"⟩, ⟨"a", "A"⟩] ∧
    ¬ List.Chain' (· ≠ ·) ([⟨"a", "A"⟩, ⟨"a", "A"⟩] : List Entity) := by
  refine ⟨by decide, by decide, fun hch => ?_⟩
  exact (List.chain'_cons.mp hch).1 rfl

/-- C5: on every exit path of the turn loop — normal completion, abort
because the channel turned out stopped at a turn boundary, or an exception
escaping the per-turn handler — the `finally` clears the channel's
active-participant set, whatever the environment did to the channel in
between. -/
theorem c5_active_participants_always_cleared (handles : List String) (num_turns : Nat)
    (env : Nat → Channel → Channel) (clock : Nat → Int) (events : Nat → TurnEvent)
    (ch : Channel) :
    (entity_chat_session handles num_turns env clock events ch).2.1.chat_participants =
      [] := by
  simp [entity_chat_session, Channel.clear_chat_participants]

/-- While the channel never reads as stopped and no exception escapes a
per-turn handler, the session loop completes and reaches every turn's
activation, whatever mix of successes and caught failures the turns had. -/
theorem runTurns_all_turns (env : Nat → Channel → Channel) (clock : Nat → Int)
    (events : Nat → TurnEvent)
    (hstop : ∀ t c, (env t c).is_stopped (clock t) = false)
    (hesc : ∀ t, events t ≠ TurnEvent.escape) :
    ∀ (n t : Nat) (ch : Channel),
      (runTurns env clock events ch t n).1 = SessionOutcome.completed ∧
      (runTurns env clock events ch t n).2.2 = n := by
  intro n
  induction n with
  | zero => intro t ch; exact ⟨rfl, rfl⟩
  | succ m ih =>
    intro t ch
    have hs := hstop t ch
    have he := hesc t
    simp only [runTurns, hs, Bool.false_eq_true, if_false]
    cases hj : events t with
    | escape => exact absurd hj he
    | ok => simpa using ih (t + 1) (env t ch)
    | caughtError => simpa using ih (t + 1) (env t ch)

/-- The analogue for the `!speak` loop. -/
theorem speak_sequence_all_turns (env : Nat → Channel → Channel) (clock : Nat → Int)
    (events : Nat → TurnEvent)
    (hstop : ∀ t c, (env t c).is_stopped (clock t) = false)
    (hesc : ∀ t, events t ≠ TurnEvent.escape) :
    ∀ (n t : Nat) (ch : Channel),
      (speak_sequence env clock events ch t n).1 = SessionOutcome.completed ∧
      (speak_sequence env clock events ch t n).2 = n := by
  intro n
  induction n with
  | zero => intro t ch; exact ⟨rfl, rfl⟩
  | succ m ih =>
    intro t ch
    have hs := hstop t ch
    have he := hesc t
    simp only [speak_sequence, hs, Bool.false_eq_true, if_false]
    cases hj : events t with
    | escape => exact absurd hj he
    | ok => simpa using ih (t + 1) (env t ch)
    | caughtError => simpa using ih (t + 1) (env t ch)

/-- C9: as long as the channel is not stopped and nothing escapes the
per-turn handlers, caught activation failures never abort a chat session or
a speak sequence: every turn and every listed entity still reaches its
activation and the loop completes. -/
theorem c9_activation_failures_isolated (handles : List String)
    (num_turns n : Nat) (env : Nat → Channel → Channel) (clock : Nat → Int)
    (events : Nat → TurnEvent) (ch : Channel)
    (hstop : ∀ t c, (env t c).is_stopped (clock t) = false)
    (hesc : ∀ t, events t ≠ TurnEvent.escape) :
    ((entity_chat_session handles num_turns env clock events ch).1 =
        SessionOutcome.completed ∧
      (entity_chat_session handles num_turns env clock events ch).2.2 = num_turns) ∧
    ((speak_sequence env clock events ch 0 n).1 = SessionOutcome.completed ∧
      (speak_sequence env clock events ch 0 n).2 = n) := by
  have h1 := runTurns_all_turns env clock events hstop hesc num_turns 0
    (handles.foldl Channel.add_chat_participant ch)
  have h2 := speak_sequence_all_turns env clock events hstop hesc n 0 ch
  exact ⟨⟨by simpa [entity_chat_session] using h1.1,
    by simpa [entity_chat_session] using h1.2⟩, h2⟩

/-- C9 witness: a two-turn chat session and a two-entity speak sequence in
which the first activation fails (and is caught) still complete with every
activation reached. -/
theorem c9_witness :
    (∀ t c, ((fun (_ : Nat) (c : Channel) => { c with last_stop_time := -100 }) t c
        |>.is_stopped ((fun (_ : Nat) => (0 : Int)) t)) = false) ∧
    (∀ t, (fun t => if t = 0 then TurnEvent.caughtError else TurnEvent.ok) t ≠
      TurnEvent.escape) ∧
    ((entity_chat_session ["a", "b"] 2
        (fun _ c => { c with last_stop_time := -100 }) (fun _ => 0)
        (fun t => if t = 0 then TurnEvent.caughtError else TurnEvent.ok)
        ⟨0, []⟩).1 = SessionOutcome.completed ∧
      (entity_chat_session ["a", "b"] 2
        (fun _ c => { c with last_stop_time := -100 }) (fun _ => 0)
        (fun t => if t = 0 then TurnEvent.caughtError else TurnEvent.ok)
        ⟨0, []⟩).2.2 = 2) ∧
    ((speak_sequence (fun _ c => { c with last_stop_time := -100 }) (fun _ => 0)
        (fun t => if t = 0 then TurnEvent.caughtError else TurnEvent.ok)
        ⟨0, []⟩ 0 2).1 = SessionOutcome.completed ∧
      (speak_sequence (fun _ c => { c with last_stop_time := -100 }) (fun _ => 0)
        (fun t => if t = 0 then TurnEvent.caughtError else TurnEvent.ok)
        ⟨0, []⟩ 0 2).2 = 2) := by
  have hstop : ∀ (t : Nat) (c : Channel),
      (({ c with last_stop_time := -100 } : Channel).is_stopped 0) = false := by
    intro t c; simp [Channel.is_stopped]
  have hesc : ∀ t : Nat,
      (if t = 0 then TurnEvent.caughtError else TurnEvent.ok) ≠ TurnEvent.escape := by
    intro t; split <;> simp
  have h := c9_activation_failures_isolated ["a", "b"] 2 2
    (fun _ c => { c with last_stop_time := -100 }) (fun _ => 0)
    (fun t => if t = 0 then TurnEvent.caughtError else TurnEvent.ok)
    ⟨0, []⟩ (fun t c => hstop t c) hesc
  exact ⟨fun t c => hstop t c, hesc, h.1, h.2⟩

/-- C1 (code defect): on a channel stopped 5 seconds earlier, a direct
human (non-proxy, non-bot) mention of the bot that also pseudo-mentions a
persona is still discarded wholesale by the stop gate — the code returns no
personas and `blocked = true`, although its own comment ("Only block if
channel is stopped AND this is not a direct user mention") and the spec say
a direct human mention must pass the gate. -/
theorem c1_stop_gate_blocks_direct_human_mention :
    is_direct_user_mention ⟨"@tomas hello", true, false, false, false, none⟩ = true ∧
    Channel.is_stopped ⟨95, []⟩ 100 = true ∧
    find_entity_by_mention [("tomas", ⟨"tomas", "Tomas"⟩)] "@tomas hello" =
      [⟨"tomas", "Tomas"⟩] ∧
    resolve_mentions [("tomas", ⟨"tomas", "Tomas"⟩)]
      ⟨"@tomas hello", true, false, false, false, none⟩ ⟨95, []⟩ 100 0 =
      ([], true) := by
  refine ⟨rfl, rfl, ?_, ?_⟩ <;> decide

/-- The draw never leaves the queue: the selected index is a valid
position. -/
theorem selected_index_lt (k seed : Nat) (h : 0 < k) :
    selected_index k seed < k := by
  by_cases hk : 1 < k
  · simp only [selected_index, if_pos hk, randint, half_size]
    have h2 : max 1 ((k + 1) / 2) - 1 + 1 - 0 = max 1 ((k + 1) / 2) := by omega
    rw [h2]
    have := Nat.mod_lt seed (y := max 1 ((k + 1) / 2)) (by omega)
    omega
  · simp only [selected_index, if_neg hk]; omega

/-- For a queue of at least two, the draw never reaches the last position:
the front segment stops strictly before the tail. -/
theorem selected_index_lt_pred (k seed : Nat) (h : 2 ≤ k) :
    selected_index k seed < k - 1 := by
  have hk : 1 < k := by omega
  simp only [selected_index, if_pos hk, randint, half_size]
  have h2 : max 1 ((k + 1) / 2) - 1 + 1 - 0 = max 1 ((k + 1) / 2) := by omega
  rw [h2]
  have := Nat.mod_lt seed (y := max 1 ((k + 1) / 2)) (by omega)
  omega

/-- A turn permutes the queue: the speaker leaves its slot and rejoins at
the tail. -/
theorem chat_turn_perm {α : Type} [Inhabited α] (q : List α) (seed : Nat)
    (h : 0 < q.length) : q.Perm (chat_turn q seed).2 := by
  have hi : selected_index q.length seed < q.length := selected_index_lt _ _ h
  have hget : q.getD (selected_index q.length seed) default =
      q[selected_index q.length seed] := by
    simp [List.getD_eq_getElem?_getD, List.getElem?_eq_getElem hi]
  simp only [chat_turn, hget]
  rw [List.eraseIdx_eq_take_drop_succ, List.append_assoc]
  conv_lhs => rw [← List.take_append_drop (selected_index q.length seed) q,
    List.drop_eq_getElem_cons hi]
  exact List.Perm.append_left _ (List.perm_append_singleton _ _).symm

/-- A turn leaves the queue length unchanged. -/
theorem chat_turn_length {α : Type} [Inhabited α] (q : List α) (seed : Nat)
    (h : 0 < q.length) : (chat_turn q seed).2.length = q.length :=
  ((chat_turn_perm q seed h).length_eq).symm

/-- A turn keeps distinctness of the queue. -/
theorem chat_turn_nodup {α : Type} [Inhabited α] (q : List α) (seed : Nat)
    (h : 0 < q.length) (hnd : q.Nodup) : (chat_turn q seed).2.Nodup :=
  (chat_turn_perm q seed h).nodup hnd

/-- Right after a turn the speaker sits at the tail of the queue. -/
theorem chat_turn_tail {α : Type} [Inhabited α] (q : List α) (seed : Nat) :
    (chat_turn q seed).2.getLast? = some (chat_turn q seed).1 := by
  simp [chat_turn, List.getLast?_concat]

/-- The speaker is the entry of the queue at the drawn index. -/
theorem chat_turn_speaker {α : Type} [Inhabited α] (q : List α) (seed : Nat)
    (h : 0 < q.length) :
    (chat_turn q seed).1 = q.get ⟨selected_index q.length seed, selected_index_lt _ _ h⟩ := by
  simp [chat_turn, List.getD_eq_getElem?_getD,
    List.getElem?_eq_getElem (selected_index_lt _ _ h)]

/-- The speaker of the turn after `q`'s turn differs from `q`'s speaker:
the previous speaker sits at the tail, and the next draw stays strictly in
front of the tail (distinct queue entries required). -/
theorem chat_turn_no_repeat {α : Type} [Inhabited α] (q : List α) (s₁ s₂ : Nat)
    (hnd : q.Nodup) (hlen : 1 < q.length) :
    (chat_turn (chat_turn q s₁).2 s₂).1 ≠ (chat_turn q s₁).1 := by
  set q' := (chat_turn q s₁).2 with hq'
  have h0 : 0 < q.length := by omega
  have hlen' : q'.length = q.length := chat_turn_length q s₁ h0
  have hnd' : q'.Nodup := chat_turn_nodup q s₁ h0 hnd
  have h0' : 0 < q'.length := by omega
  have hi₂ : selected_index q'.length s₂ < q'.length - 1 :=
    selected_index_lt_pred _ _ (by omega)
  have hne : q' ≠ [] := by
    intro hnil
    rw [hnil] at hlen'
    simp at hlen'
    omega
  have hspeak : (chat_turn q' s₂).1 =
      q'.get ⟨selected_index q'.length s₂, selected_index_lt _ _ h0'⟩ :=
    chat_turn_speaker q' s₂ h0'
  have htail : q'.getLast? = some (chat_turn q s₁).1 := chat_turn_tail q s₁
  have hlast : q'.getLast hne = (chat_turn q s₁).1 := by
    have := List.getLast?_eq_getLast (l := q') hne
    rw [this] at htail
    exact Option.some_injective _ htail
  have hlastElem : q'.getLast hne = q'.get ⟨q'.length - 1, by omega⟩ := by
    rw [List.getLast_eq_getElem]
    simp
  rw [hspeak]
  intro hcontr
  have hgets : q'.get ⟨selected_index q'.length s₂, selected_index_lt _ _ h0'⟩ =
      q'.get ⟨q'.length - 1, by omega⟩ := by
    rw [hcontr, ← hlast, hlastElem]
  have hidx := hnd'.get_inj_iff.mp hgets
  have hidx2 : selected_index q'.length s₂ = q'.length - 1 :=
    congrArg Fin.val hidx
  omega

/-- C4 amended: in a session whose queue holds pairwise-distinct personas
and has length greater than 1, no two consecutive turns select the same
persona; and (for every queue) the speaker of a turn is at the tail of the
queue immediately afterwards, and a turn never changes the queue's length. -/
theorem c4_scheduler_invariants {α : Type} [Inhabited α] (q : List α)
    (seeds : List Nat) (hnd : q.Nodup) (hlen : 1 < q.length) :
    List.Chain' (· ≠ ·) (chat_run q seeds).1 ∧
    (∀ (p : List α) (s : Nat),
      (chat_turn p s).2.getLast? = some (chat_turn p s).1) ∧
    (∀ (p : List α) (s : Nat), 0 < p.length →
      (chat_turn p s).2.length = p.length) := by
  refine ⟨?_, fun p s => chat_turn_tail p s, fun p s h => chat_turn_length p s h⟩
  induction seeds generalizing q with
  | nil => simp [chat_run]
  | cons s rest ih =>
    have h0 : 0 < q.length := by omega
    have hnd' := chat_turn_nodup q s h0 hnd
    have hlen' : 1 < (chat_turn q s).2.length := by
      rw [chat_turn_length q s h0]; omega
    have hch := ih (chat_turn q s).2 hnd' hlen'
    simp only [chat_run]
    rw [List.chain'_cons']
    refine ⟨?_, hch⟩
    intro y hy
    cases rest with
    | nil => simp [chat_run] at hy
    | cons s₂ rest₂ =>
      simp only [chat_run, List.head?_cons, Option.mem_def, Option.some.injEq] at hy
      rw [← hy]
      exact (chat_turn_no_repeat q s s₂ hnd hlen).symm

/-- C4 witness: a three-persona queue over four turns — distinct
consecutive speakers, tail placement and preserved length at a concrete
queue. -/
theorem c4_witness :
    ([⟨"a", "A"⟩, ⟨"b", "B"⟩, ⟨"c", "C"⟩] : List Entity).Nodup ∧
    1 < ([⟨"a", "A"⟩, ⟨"b", "B"⟩, ⟨"c", "C"⟩] : List Entity).length ∧
    (List.Chain' (· ≠ ·)
        (chat_run ([⟨"a", "A"⟩, ⟨"b", "B"⟩, ⟨"c", "C"⟩] : List Entity)
          [0, 3, 1, 2]).1 ∧
      (∀ (p : List Entity) (s : Nat),
        (chat_turn p s).2.getLast? = some (chat_turn p s).1) ∧
      (∀ (p : List Entity) (s : Nat), 0 < p.length →
        (chat_turn p s).2.length = p.length)) :=
  ⟨by decide, by decide,
    c4_scheduler_invariants ([⟨"a", "A"⟩, ⟨"b", "B"⟩, ⟨"c", "C"⟩] : List Entity)
      [0, 3, 1, 2] (by decide) (by decide)⟩

/-- The per-entity test `find_entity_by_mention` applies (once the
already-collected check is vacuous): the lowered `@handle` occurs as a
substring of the lowered message, or the lowered handle is one of the
lowered `@word` tokens. -/
def mention_hit (handle : String) (message_content : String) : Bool :=
  hasSubstr ("@" ++ strLower handle).toList (strLower message_content).toList ||
    ((pseudoMentions (strLower message_content)).map strLower).contains (strLower handle)

/-- A registry is well formed when every stored entity carries the handle
it is keyed under and no key repeats (what `load_from_directory` and
`add_entity` produce). -/
def WellFormedRegistry (entitys : List (String × Entity)) : Prop :=
  (∀ p ∈ entitys, p.2.handle = p.1) ∧ (entitys.map (·.1)).Nodup

/-- The fold of `find_entity_by_mention` over a well-formed remainder of
the registry appends exactly the hits, in registry order. -/
theorem find_entity_fold_eq (text : String) :
    ∀ (l : List (String × Entity)) (acc : List Entity),
      (∀ p ∈ l, acc.contains p.2 = false) →
      (∀ p ∈ l, p.2.handle = p.1) →
      (l.map (·.1)).Nodup →
      l.foldl
        (fun acc he =>
          if hasSubstr ("@" ++ strLower he.1).toList (strLower text).toList ||
              ((pseudoMentions (strLower text)).map strLower).contains (strLower he.1) &&
                !acc.contains he.2 then
            acc ++ [he.2]
          else acc)
        acc = acc ++ (l.filter (fun p => mention_hit p.1 text)).map (·.2) := by
  intro l
  induction l with
  | nil => intro acc _ _ _; simp
  | cons he rest ih =>
    intro acc hacc hwf hnd
    have hhe : acc.contains he.2 = false := hacc he (by simp)
    have hstep : ∀ acc' : List Entity,
        (∀ p ∈ rest, acc'.contains p.2 = false) →
        rest.foldl
          (fun acc he =>
            if hasSubstr ("@" ++ strLower he.1).toList (strLower text).toList ||
                ((pseudoMentions (strLower text)).map strLower).contains (strLower he.1) &&
                  !acc.contains he.2 then
              acc ++ [he.2]
            else acc)
          acc' = acc' ++ (rest.filter (fun p => mention_hit p.1 text)).map (·.2) :=
      fun acc' h' => ih acc' h' (fun p hp => hwf p (by simp [hp]))
        (by simpa using hnd.of_cons)
    have hne : ∀ p ∈ rest, p.2 ≠ he.2 := by
      intro p hp hcontr
      have h1 : p.2.handle = p.1 := hwf p (by simp [hp])
      have h2 : he.2.handle = he.1 := hwf he (by simp)
      have : p.1 = he.1 := by rw [← h1, ← h2, hcontr]
      have hkey : he.1 ∉ rest.map (·.1) := by
        have := hnd
        simp only [List.map_cons, List.nodup_cons] at this
        exact this.1
      exact hkey (this ▸ List.mem_map_of_mem (·.1) hp)
    simp only [List.foldl_cons, hhe, Bool.not_false, Bool.and_true, List.filter_cons]
    have hdef : (hasSubstr ("@" ++ strLower he.1).toList (strLower text).toList ||
        ((pseudoMentions (strLower text)).map strLower).contains (strLower he.1)) =
        mention_hit he.1 text := rfl
    by_cases hcond : mention_hit he.1 text = true
    · rw [hdef, if_pos hcond, if_pos hcond]
      rw [hstep (acc ++ [he.2]) (by
        intro p hp
        have hmem : p.2 ∉ acc := by
          have := hacc p (by simp [hp])
          simpa [List.contains, List.elem_eq_mem] using this
        simp [List.contains, List.elem_eq_mem, hmem, hne p hp])]
      simp
    · have hcond' : mention_hit he.1 text = false := by
        cases hmh : mention_hit he.1 text
        · rfl
        · exact absurd hmh hcond
      rw [hdef, if_neg (by rw [hcond']; exact Bool.false_ne_true),
        if_neg (by rw [hcond']; exact Bool.false_ne_true)]
      exact hstep acc (fun p hp => hacc p (by simp [hp]))

/-- C6 counterexample: the scan walks the registry, not the text — with
registry iteration order `anna` before `tomas`, the message
`"@Tomas hi @anna"` yields `[anna, tomas]`, not the claimed text order
`[tomas, anna]`. -/
theorem c6_counterexample :
    find_entity_by_mention [("anna", ⟨"anna", "Anna"⟩), ("tomas", ⟨"tomas", "Tomas"⟩)]
        "@Tomas hi @anna" = [⟨"anna", "Anna"⟩, ⟨"tomas", "Tomas"⟩] ∧
    find_entity_by_mention [("anna", ⟨"anna", "Anna"⟩), ("tomas", ⟨"tomas", "Tomas"⟩)]
        "@Tomas hi @anna" ≠ [⟨"tomas", "Tomas"⟩, ⟨"anna", "Anna"⟩] := by
  refine ⟨by decide, by decide⟩

/-- C6 amended: over a well-formed registry, the mention scan returns
exactly the entities whose mention test fires, case-insensitively, each at
most once, in registry iteration order (the spec's example registry
iterates `tomas` before `anna` so its expected output also holds). -/
theorem c6_find_by_mention (entitys : List (String × Entity)) (text : String)
    (hwf : WellFormedRegistry entitys) :
    find_entity_by_mention entitys text =
      (entitys.filter (fun p => mention_hit p.1 text)).map (·.2) ∧
    (find_entity_by_mention entitys text).Nodup ∧
    find_entity_by_mention
      [("tomas", ⟨"tomas", "Tomas"⟩), ("anna", ⟨"anna", "Anna"⟩),
        ("carla", ⟨"carla", "Carla"⟩)] "@Tomas hi @anna" =
      [⟨"tomas", "Tomas"⟩, ⟨"anna", "Anna"⟩] := by
  have hmain : find_entity_by_mention entitys text =
      (entitys.filter (fun p => mention_hit p.1 text)).map (·.2) := by
    rw [find_entity_by_mention]
    exact find_entity_fold_eq text entitys [] (fun p _ => rfl) hwf.1 hwf.2
  refine ⟨hmain, ?_, by decide⟩
  rw [hmain]
  have hkeys : ((entitys.filter (fun p => mention_hit p.1 text)).map (·.1)).Nodup :=
    hwf.2.sublist ((List.filter_sublist entitys).map (·.1))
  have hmapeq : ((entitys.filter (fun p => mention_hit p.1 text)).map (·.2)).map
      Entity.handle = (entitys.filter (fun p => mention_hit p.1 text)).map (·.1) := by
    rw [List.map_map]
    exact List.map_congr_left (fun p hp =>
      hwf.1 p ((List.filter_sublist entitys).mem hp))
  exact List.Nodup.of_map Entity.handle (by rw [hmapeq]; exact hkeys)

/-- A space character is never a word character. -/
theorem space_not_word (c : Char) (h : isSpaceChar c = true) : isWordChar c = false := by
  have hmem : c.toNat ∈ spaceCodes := by
    simpa [isSpaceChar, List.contains, List.elem_eq_mem] using h
  have hall : ∀ n ∈ spaceCodes,
      (wordRanges.any (fun r => r.1 ≤ n && n ≤ r.2)) = false := by decide
  exact hall _ hmem

/-- Every piece `str.split()` produces is a nonempty run of non-space
characters. -/
theorem splitWsAux_tokens : ∀ (l cur : List Char),
    (∀ c ∈ cur, isSpaceChar c = false) →
    ∀ t ∈ splitWsAux l cur, t ≠ [] ∧ ∀ c ∈ t, isSpaceChar c = false := by
  intro l
  induction l with
  | nil =>
    intro cur hcur t ht
    simp only [splitWsAux] at ht
    split at ht
    · simp at ht
    · rename_i hne
      simp only [List.mem_singleton] at ht
      subst ht
      exact ⟨by simpa using hne, fun c hc => hcur c (List.mem_reverse.mp hc)⟩
  | cons c rest ih =>
    intro cur hcur t ht
    simp only [splitWsAux] at ht
    by_cases hsp : isSpaceChar c
    · rw [if_pos hsp] at ht
      split at ht
      · exact ih [] (by simp) t ht
      · rename_i hne
        rcases List.mem_cons.mp ht with h | h
        · subst h
          exact ⟨by simpa using hne, fun d hd => hcur d (List.mem_reverse.mp hd)⟩
        · exact ih [] (by simp) t h
    · rw [if_neg hsp] at ht
      refine ih (c :: cur) ?_ t ht
      intro d hd
      rcases List.mem_cons.mp hd with h | h
      · subst h; simpa using hsp
      · exact hcur d h

/-- Flattening the split gives back exactly the non-space characters, in
order. -/
theorem splitWsAux_flatten : ∀ (l cur : List Char),
    (splitWsAux l cur).flatten = cur.reverse ++ l.filter (fun c => !isSpaceChar c) := by
  intro l
  induction l with
  | nil =>
    intro cur
    simp only [splitWsAux]
    split
    · rename_i h; subst h; simp
    · simp
  | cons c rest ih =>
    intro cur
    simp only [splitWsAux]
    by_cases hsp : isSpaceChar c
    · rw [if_pos hsp]
      have hfc : (c :: rest).filter (fun c => !isSpaceChar c) =
          rest.filter (fun c => !isSpaceChar c) := by
        simp [List.filter_cons, hsp]
      split
      · rename_i h; subst h; simp [ih, hfc]
      · simp [List.flatten_cons, ih, hfc]
    · rw [if_neg hsp]
      have hfc : (c :: rest).filter (fun c => !isSpaceChar c) =
          c :: rest.filter (fun c => !isSpaceChar c) := by
        simp [List.filter_cons, hsp]
      rw [ih (c :: cur), hfc]
      simp

/-- Joining space-free pieces and filtering the spaces back out recovers
their concatenation. -/
theorem joinSpace_filter : ∀ ts : List (List Char),
    (∀ t ∈ ts, ∀ c ∈ t, isSpaceChar c = false) →
    (joinSpace ts).filter (fun c => !isSpaceChar c) = ts.flatten := by
  intro ts
  induction ts with
  | nil => intro _; simp [joinSpace]
  | cons t rest ih =>
    intro hgood
    cases rest with
    | nil =>
      simp only [joinSpace, List.flatten_cons, List.flatten_nil, List.append_nil]
      exact List.filter_eq_self.mpr (fun c hc => by
        simp [hgood t (by simp) c hc])
    | cons t₂ rest₂ =>
      have hjoin : joinSpace (t :: t₂ :: rest₂) = t ++ ' ' :: joinSpace (t₂ :: rest₂) :=
        rfl
      rw [hjoin, List.filter_append, List.filter_cons]
      have hsp : (!isSpaceChar ' ') = false := by decide
      rw [List.filter_eq_self.mpr (fun c hc => by simp [hgood t (by simp) c hc])]
      simp only [hsp, Bool.false_eq_true, if_false, List.flatten_cons]
      rw [ih (fun u hu => hgood u (by simp [hu]))]
      simp

/-- Every character of a join is a character of some piece, or the single
separating space. -/
theorem joinSpace_mem : ∀ (ts : List (List Char)) (c : Char), c ∈ joinSpace ts →
    (∃ t ∈ ts, c ∈ t) ∨ c = ' ' := by
  intro ts
  induction ts with
  | nil => intro c hc; simp [joinSpace] at hc
  | cons t rest ih =>
    intro c hc
    cases rest with
    | nil =>
      simp only [joinSpace] at hc
      exact Or.inl ⟨t, by simp, hc⟩
    | cons t₂ rest₂ =>
      have hjoin : joinSpace (t :: t₂ :: rest₂) = t ++ ' ' :: joinSpace (t₂ :: rest₂) :=
        rfl
      rw [hjoin, List.mem_append] at hc
      rcases hc with h | h
      · exact Or.inl ⟨t, by simp, h⟩
      · rcases List.mem_cons.mp h with h | h
        · exact Or.inr h
        · rcases ih c h with ⟨u, hu, hcu⟩ | h
          · exact Or.inl ⟨u, by simp [hu], hcu⟩
          · exact Or.inr h

/-- A list without spaces satisfies the no-two-adjacent-spaces chain. -/
theorem chain_of_no_space : ∀ t : List Char, (∀ c ∈ t, isSpaceChar c = false) →
    List.Chain' (fun a b => ¬(a = ' ' ∧ b = ' ')) t := by
  intro t
  induction t with
  | nil => intro _; simp
  | cons a rest ih =>
    intro h
    cases rest with
    | nil => simp
    | cons b rest₂ =>
      rw [List.chain'_cons]
      refine ⟨fun hab => ?_, ih (fun c hc => h c (by simp [hc]))⟩
      have := h a (by simp)
      rw [hab.1] at this
      exact absurd this (by decide)

/-- The head of a join of nonempty space-free pieces is not a space. -/
theorem joinSpace_head : ∀ ts : List (List Char),
    (∀ t ∈ ts, t ≠ [] ∧ ∀ c ∈ t, isSpaceChar c = false) →
    ∀ c, (joinSpace ts).head? = some c → c ≠ ' ' := by
  intro ts
  cases ts with
  | nil => intro _ c hc; simp [joinSpace] at hc
  | cons t rest =>
    intro hgood c hc
    have ht := hgood t (by simp)
    have hhead : (joinSpace (t :: rest)).head? = t.head? := by
      cases rest with
      | nil => rfl
      | cons t₂ rest₂ =>
        have hjoin : joinSpace (t :: t₂ :: rest₂) = t ++ ' ' :: joinSpace (t₂ :: rest₂) :=
          rfl
        rw [hjoin, List.head?_append]
        cases htl : t.head? with
        | none => exact absurd (List.head?_eq_none_iff.mp htl) ht.1
        | some d => simp [htl]
    rw [hhead] at hc
    have : c ∈ t := List.mem_of_mem_head? (by rw [hc]; rfl)
    intro hceq
    have := ht.2 c this
    rw [hceq] at this
    exact absurd this (by decide)

/-- A join of nonempty pieces is nonempty. -/
theorem joinSpace_ne_nil : ∀ ts : List (List Char), ts ≠ [] →
    (∀ t ∈ ts, t ≠ []) → joinSpace ts ≠ [] := by
  intro ts
  cases ts with
  | nil => intro h _; exact absurd rfl h
  | cons t rest =>
    intro _ hne
    cases rest with
    | nil => exact hne t (by simp)
    | cons t₂ rest₂ =>
      have hjoin : joinSpace (t :: t₂ :: rest₂) = t ++ ' ' :: joinSpace (t₂ :: rest₂) :=
        rfl
      rw [hjoin]
      intro hcontr
      have := List.append_eq_nil.mp hcontr
      simp at this

/-- The last character of a join of nonempty space-free pieces is not a
space. -/
theorem joinSpace_last : ∀ ts : List (List Char),
    (∀ t ∈ ts, t ≠ [] ∧ ∀ c ∈ t, isSpaceChar c = false) →
    ∀ c, (joinSpace ts).getLast? = some c → c ≠ ' ' := by
  intro ts
  induction ts with
  | nil => intro _ c hc; simp [joinSpace] at hc
  | cons t rest ih =>
    intro hgood c hc
    cases rest with
    | nil =>
      have ht := hgood t (by simp)
      simp only [joinSpace] at hc
      have : c ∈ t := List.mem_of_mem_getLast? (by rw [hc]; rfl)
      intro hceq
      have := ht.2 c this
      rw [hceq] at this
      exact absurd this (by decide)
    | cons t₂ rest₂ =>
      have hjoin : joinSpace (t :: t₂ :: rest₂) = t ++ ' ' :: joinSpace (t₂ :: rest₂) :=
        rfl
      rw [hjoin] at hc
      have hne : joinSpace (t₂ :: rest₂) ≠ [] :=
        joinSpace_ne_nil _ (by simp) (fun u hu => (hgood u (by simp [hu])).1)
      have hc' : (joinSpace (t₂ :: rest₂)).getLast? = some c := by
        rw [List.getLast?_append] at hc
        have h1 : (' ' :: joinSpace (t₂ :: rest₂)).getLast? =
            (joinSpace (t₂ :: rest₂)).getLast? := by
          have : (' ' :: joinSpace (t₂ :: rest₂)) = [' '] ++ joinSpace (t₂ :: rest₂) :=
            rfl
          rw [this, List.getLast?_append]
          cases hg : (joinSpace (t₂ :: rest₂)).getLast? with
          | none => exact absurd (List.getLast?_eq_none_iff.mp hg) hne
          | some d => simp [hg]
        rw [h1] at hc
        cases hg : (joinSpace (t₂ :: rest₂)).getLast? with
        | none => exact absurd (List.getLast?_eq_none_iff.mp hg) hne
        | some d => rw [hg] at hc; simpa using hc
      exact ih (fun u hu => hgood u (by simp [hu])) c hc'

/-- The no-two-adjacent-spaces chain for a join of nonempty space-free
pieces. -/
theorem joinSpace_chain : ∀ ts : List (List Char),
    (∀ t ∈ ts, t ≠ [] ∧ ∀ c ∈ t, isSpaceChar c = false) →
    List.Chain' (fun a b => ¬(a = ' ' ∧ b = ' ')) (joinSpace ts) := by
  intro ts
  induction ts with
  | nil => intro _; simp [joinSpace]
  | cons t rest ih =>
    intro hgood
    cases rest with
    | nil => exact chain_of_no_space t (hgood t (by simp)).2
    | cons t₂ rest₂ =>
      have hjoin : joinSpace (t :: t₂ :: rest₂) = t ++ ' ' :: joinSpace (t₂ :: rest₂) :=
        rfl
      rw [hjoin]
      apply List.Chain'.append
      · exact chain_of_no_space t (hgood t (by simp)).2
      · rw [List.chain'_cons']
        refine ⟨?_, ih (fun u hu => hgood u (by simp [hu]))⟩
        intro y hy
        intro hcontr
        exact joinSpace_head (t₂ :: rest₂) (fun u hu => hgood u (by simp [hu])) y hy
          hcontr.2
      · intro x hx y hy
        intro hcontr
        have ht := hgood t (by simp)
        have hxt : x ∈ t := List.mem_of_mem_getLast? hx
        have := ht.2 x hxt
        rw [hcontr.1] at this
        exact absurd this (by decide)

/-- Stripping leading spaces from a list that does not start with one does
nothing. -/
theorem dropWhile_space_eq_self (l : List Char)
    (h : ∀ c, l.head? = some c → c ≠ ' ') : l.dropWhile (· == ' ') = l := by
  cases l with
  | nil => rfl
  | cons c rest =>
    have hc : c ≠ ' ' := h c rfl
    exact List.dropWhile_cons_of_neg (by simpa using hc)

/-- `_normalize_name` in closed form: the `.strip()` is a no-op because the
join of the split pieces neither starts nor ends with a space, so the
result is exactly the join of the split of the kept characters. -/
theorem normalize_name_toList (s : String) :
    (normalize_name s).toList =
      joinSpace (splitWs (s.toList.filter (fun c => isWordChar c || isSpaceChar c))) := by
  have hgood : ∀ t ∈ splitWs (s.toList.filter
      (fun c => isWordChar c || isSpaceChar c)), t ≠ [] ∧
        ∀ c ∈ t, isSpaceChar c = false := splitWsAux_tokens
    (s.toList.filter (fun c => isWordChar c || isSpaceChar c)) [] (by simp)
  have hhead := joinSpace_head
    (splitWs (s.toList.filter (fun c => isWordChar c || isSpaceChar c)))
    (fun t ht => hgood t ht)
  have hlast := joinSpace_last
    (splitWs (s.toList.filter (fun c => isWordChar c || isSpaceChar c)))
    (fun t ht => hgood t ht)
  show ((((joinSpace (splitWs (s.toList.filter
      (fun c => isWordChar c || isSpaceChar c)))).dropWhile
        (· == ' ')).reverse.dropWhile (· == ' ')).reverse.asString).toList = _
  rw [dropWhile_space_eq_self _ hhead]
  rw [dropWhile_space_eq_self _ (by
    intro c hc
    rw [List.head?_reverse] at hc
    exact hlast c hc)]
  rw [List.reverse_reverse]
  rfl

/-- C8 counterexample: `re`'s `\w` keeps the underscore, which is neither a
letter, a digit, nor whitespace, so `normalizeName("a_b")` is `"a_b"` and
not the `"ab"` the claim's removal rule demands. -/
theorem c8_counterexample :
    normalize_name "a_b" = "a_b" ∧ normalize_name "a_b" ≠ "ab" ∧
    '_' ∈ (normalize_name "a_b").toList := by
  refine ⟨by decide, by decide, by decide⟩

/-- C8 amended: `normalizeName` removes every character that is not a word
character (letter of any script, digit, or underscore) or whitespace,
collapses whitespace runs to single spaces and trims, preserving accented
and non-Latin letters: every output character is a word character or a
single space, the non-space output is exactly the input's word characters
in order, no two spaces are adjacent, the output neither starts nor ends
with a space, `normalizeName("Tomás 🎭!!") = "Tomás"`, and Cyrillic and CJK
letters survive while emoji do not:
`normalizeName(" Москва  北京 😀!! ") = "Москва 北京"`. -/
theorem c8_normalize_name (s : String) :
    (∀ c ∈ (normalize_name s).toList, isWordChar c = true ∨ c = ' ') ∧
    (normalize_name s).toList.filter (fun c => !isSpaceChar c) =
      s.toList.filter isWordChar ∧
    List.Chain' (fun a b => ¬(a = ' ' ∧ b = ' ')) (normalize_name s).toList ∧
    (∀ c, (normalize_name s).toList.head? = some c → c ≠ ' ') ∧
    (∀ c, (normalize_name s).toList.getLast? = some c → c ≠ ' ') ∧
    normalize_name "Tomás 🎭!!" = "Tomás" ∧
    normalize_name " Москва  北京 😀!! " = "Москва 北京" := by
  have hgood : ∀ t ∈ splitWs (s.toList.filter
      (fun c => isWordChar c || isSpaceChar c)), t ≠ [] ∧
        ∀ c ∈ t, isSpaceChar c = false := splitWsAux_tokens
    (s.toList.filter (fun c => isWordChar c || isSpaceChar c)) [] (by simp)
  have hflat : (splitWs (s.toList.filter
      (fun c => isWordChar c || isSpaceChar c))).flatten =
      (s.toList.filter (fun c => isWordChar c || isSpaceChar c)).filter
        (fun c => !isSpaceChar c) := by
    have := splitWsAux_flatten
      (s.toList.filter (fun c => isWordChar c || isSpaceChar c)) []
    simpa [splitWs] using this
  rw [normalize_name_toList]
  refine ⟨?_, ?_, ?_, ?_, ?_, by decide, by decide⟩
  · intro c hc
    rcases joinSpace_mem _ c hc with ⟨t, ht, hct⟩ | h
    · left
      have hmem : c ∈ (splitWs (s.toList.filter
          (fun c => isWordChar c || isSpaceChar c))).flatten :=
        List.mem_flatten_of_mem ht hct
      rw [hflat] at hmem
      have h1 := List.mem_filter.mp hmem
      have h2 := List.mem_filter.mp h1.1
      have hns : isSpaceChar c = false := by simpa using h1.2
      have hws : (isWordChar c || isSpaceChar c) = true := h2.2
      rw [hns] at hws
      simpa using hws
    · right; exact h
  · rw [joinSpace_filter _ (fun t ht => (hgood t ht).2), hflat, List.filter_filter]
    refine List.filter_congr ?_
    intro c _
    cases hsp : isSpaceChar c with
    | true => simp [space_not_word c hsp]
    | false => simp [hsp]
  · exact joinSpace_chain _ (fun t ht => hgood t ht)
  · exact joinSpace_head _ (fun t ht => hgood t ht)
  · exact joinSpace_last _ (fun t ht => hgood t ht)

/-- Looking a key up after a dict insertion: the inserted value under its
key, anything else untouched. -/
theorem dictLookup_dictInsert {α : Type} (m : List (String × α)) (k : String) (v : α)
    (k' : String) :
    dictLookup (dictInsert m k v) k' = if k' = k then some v else dictLookup m k' := by
  induction m with
  | nil =>
    by_cases h : k' = k
    · subst h; simp [dictInsert, dictLookup]
    · have hk : (k == k') = false := by
        simp only [beq_eq_false_iff_ne, ne_eq]
        intro hcontr; exact h hcontr.symm
      simp [dictInsert, dictLookup, List.find?, hk, h]
  | cons p rest ih =>
    by_cases hp : p.1 = k
    · rw [dictInsert]
      rw [if_pos (by simpa using hp)]
      by_cases h : k' = k
      · subst h; simp [dictLookup, List.find?]
      · rw [if_neg h]
        have hk : (k == k') = false := by
          simp only [beq_eq_false_iff_ne, ne_eq]
          intro hcontr; exact h hcontr.symm
        have hp' : (p.1 == k') = false := by
          rw [hp]; exact hk
        simp [dictLookup, List.find?, hk, hp']
    · rw [dictInsert]
      rw [if_neg (by simpa using hp)]
      by_cases hpk : p.1 = k'
      · have h : ¬ k' = k := by rw [← hpk]; exact hp
        rw [if_neg h]
        simp [dictLookup, List.find?, hpk]
      · have h1 : (p.1 == k') = false := by simpa using hpk
        simp only [dictLookup, List.find?, h1]
        have := ih
        simp only [dictLookup] at this
        exact this

/-- Keys after a dict insertion: unchanged when the key was present, the
key appended otherwise. -/
theorem dictInsert_keys {α : Type} (m : List (String × α)) (k : String) (v : α) :
    (dictInsert m k v).map (·.1) =
      if k ∈ m.map (·.1) then m.map (·.1) else m.map (·.1) ++ [k] := by
  induction m with
  | nil => simp [dictInsert]
  | cons p rest ih =>
    by_cases hp : p.1 = k
    · rw [dictInsert, if_pos (by simpa using hp)]
      rw [if_pos (by simp [hp])]
      simp [hp]
    · rw [dictInsert, if_neg (by simpa using hp)]
      by_cases hmem : k ∈ rest.map (·.1)
      · rw [if_pos (by simp [hmem])]
        simp only [List.map_cons]
        rw [ih, if_pos hmem]
      · rw [if_neg (by
          simp only [List.map_cons, List.mem_cons]
          push_neg
          exact ⟨fun hc => hp hc.symm, hmem⟩)]
        simp only [List.map_cons]
        rw [ih, if_neg hmem]
        simp

/-- A key is missing from the lookup exactly when it is not among the
keys. -/
theorem dictLookup_eq_none {α : Type} (m : List (String × α)) (k : String) :
    dictLookup m k = none ↔ k ∉ m.map (·.1) := by
  induction m with
  | nil => simp [dictLookup]
  | cons p rest ih =>
    by_cases hp : p.1 = k
    · simp [dictLookup, List.find?, hp]
    · have h1 : (p.1 == k) = false := by simpa using hp
      simp only [dictLookup, List.find?, h1, List.map_cons, List.mem_cons]
      rw [dictLookup] at ih
      rw [ih]
      constructor
      · intro h hc
        rcases hc with hc | hc
        · exact hp hc.symm
        · exact h hc
      · intro h hc
        exact h (Or.inr hc)

/-- One conflict-resolution step as seen from a single handle's holder. -/
def updateHolder (cur : Option (Entity × Bool)) (f : DefFile) : Option (Entity × Bool) :=
  match cur with
  | none => some (f.entity, f.is_generated)
  | some (_, existing_is_generated) =>
    if should_replace existing_is_generated f.is_generated then
      some (f.entity, f.is_generated)
    else cur

/-- The holder a handle ends up with after a run of files: fold the
single-handle step over the files that carry that handle. -/
def chooseWinner (cur : Option (Entity × Bool)) (files : List DefFile) (h : String) :
    Option (Entity × Bool) :=
  files.foldl (fun cur f => if f.entity.handle == h then updateHolder cur f else cur) cur

/-- The load-pass state, read at one handle, is exactly the single-handle
fold. -/
theorem loadFold_lookup (files : List DefFile) :
    ∀ (st : List (String × (Entity × Bool))) (h : String),
      dictLookup (files.foldl loadStep st) h = chooseWinner (dictLookup st h) files h := by
  induction files with
  | nil => intro st h; simp [chooseWinner]
  | cons f rest ih =>
    intro st h
    have hstep : dictLookup (loadStep st f) h =
        if f.entity.handle == h then updateHolder (dictLookup st h) f
        else dictLookup st h := by
      rw [loadStep]
      split
      · rename_i hcur
        rw [dictLookup_dictInsert]
        by_cases hh : f.entity.handle = h
        · rw [if_pos (by subst hh; rfl), if_pos (by simpa using hh)]
          rw [← hh, hcur]
          simp only [updateHolder]
        · rw [if_neg (fun hc => hh hc.symm), if_neg (by simpa using hh)]
      · rename_i a g0 hcur
        by_cases hrep : should_replace g0 f.is_generated
        · rw [if_pos hrep, dictLookup_dictInsert]
          by_cases hh : f.entity.handle = h
          · rw [if_pos (by subst hh; rfl), if_pos (by simpa using hh)]
            rw [← hh, hcur]
            simp only [updateHolder, if_pos hrep]
          · rw [if_neg (fun hc => hh hc.symm), if_neg (by simpa using hh)]
        · rw [if_neg hrep]
          by_cases hh : f.entity.handle = h
          · rw [if_pos (by simpa using hh)]
            rw [← hh, hcur]
            simp only [updateHolder, if_neg hrep]
          · rw [if_neg (by simpa using hh)]
    simp only [List.foldl_cons, chooseWinner, List.foldl_cons]
    rw [ih (loadStep st f) h, hstep]
    rfl

/-- The holder the claim's three conflict rules predict for one handle,
given the files carrying that handle in processing order: the last
generated file (flagged generated) when one exists, otherwise the last file
(flagged manual) — falling back to the incoming holder when no file
carries the handle. -/
def holderSpec (cur : Option (Entity × Bool)) (mine : List DefFile) :
    Option (Entity × Bool) :=
  match (mine.filter DefFile.is_generated).getLast? with
  | some g => some (g.entity, true)
  | none =>
    match mine.getLast? with
    | some f =>
      match cur with
      | some (e0, true) => some (e0, true)
      | _ => some (f.entity, false)
    | none => cur

/-- A generated file always takes the holder slot. -/
theorem updateHolder_generated (cur : Option (Entity × Bool)) (f : DefFile)
    (hg : f.is_generated = true) : updateHolder cur f = some (f.entity, true) := by
  cases cur with
  | none => rw [updateHolder, hg]
  | some eg =>
    rcases eg with ⟨e0, g0⟩
    have : should_replace g0 f.is_generated = true := by
      rw [hg, should_replace]
      cases g0 <;> simp
    rw [updateHolder, if_pos this, hg]

/-- A manual file takes an empty or manual slot but never a generated
one. -/
theorem updateHolder_manual (f : DefFile) (hg : f.is_generated = false) :
    updateHolder none f = some (f.entity, false) ∧
    (∀ e0, updateHolder (some (e0, true)) f = some (e0, true)) ∧
    (∀ e0, updateHolder (some (e0, false)) f = some (f.entity, false)) := by
  refine ⟨by rw [updateHolder, hg], fun e0 => ?_, fun e0 => ?_⟩
  · have : should_replace true f.is_generated = false := by
      rw [hg, should_replace]; simp
    rw [updateHolder, if_neg (by rw [this]; exact Bool.false_ne_true)]
  · have : should_replace false f.is_generated = true := by
      rw [hg, should_replace]; simp
    rw [updateHolder, if_pos this, hg]

/-- Appending a generated file for the handle makes it the holder
outright. -/
theorem holderSpec_concat_generated (cur : Option (Entity × Bool))
    (mine : List DefFile) (f : DefFile) (hg : f.is_generated = true) :
    holderSpec cur (mine ++ [f]) = some (f.entity, true) := by
  rw [holderSpec, List.filter_append]
  have hone : List.filter DefFile.is_generated [f] = [f] := by
    simp [List.filter_cons, hg]
  rw [hone, List.getLast?_concat]

/-- Appending a manual file for the handle acts on the predicted holder
exactly as one conflict step does. -/
theorem holderSpec_concat_manual (cur : Option (Entity × Bool))
    (mine : List DefFile) (f : DefFile) (hg : f.is_generated = false) :
    holderSpec cur (mine ++ [f]) = updateHolder (holderSpec cur mine) f := by
  have hum := updateHolder_manual f hg
  have hfilg : List.filter DefFile.is_generated [f] = [] := by
    simp [List.filter_cons, hg]
  rw [holderSpec, List.filter_append, hfilg, List.append_nil, List.getLast?_concat,
    holderSpec]
  cases hlastg : (mine.filter DefFile.is_generated).getLast? with
  | some g => exact (hum.2.1 g.entity).symm
  | none =>
    cases hlast : mine.getLast? with
    | some fp =>
      cases cur with
      | none => exact (hum.2.2 fp.entity).symm
      | some eg =>
        rcases eg with ⟨e0, g0⟩
        cases g0 with
        | true => exact (hum.2.1 e0).symm
        | false => exact (hum.2.2 fp.entity).symm
    | none =>
      cases cur with
      | none => exact hum.1.symm
      | some eg =>
        rcases eg with ⟨e0, g0⟩
        cases g0 with
        | true => exact (hum.2.1 e0).symm
        | false => exact (hum.2.2 e0).symm

/-- The single-handle fold realises exactly the claim's three rules. -/
theorem chooseWinner_spec (h : String) (files : List DefFile) :
    ∀ cur, chooseWinner cur files h =
      holderSpec cur (files.filter (fun f => f.entity.handle == h)) := by
  induction files using List.reverseRecOn with
  | nil => intro cur; rfl
  | append_singleton l f ih =>
    intro cur
    rw [chooseWinner, List.foldl_append]
    have hfold : List.foldl
        (fun cur f => if f.entity.handle == h then updateHolder cur f else cur) cur l =
        chooseWinner cur l h := rfl
    rw [hfold, List.foldl_cons, List.foldl_nil, List.filter_append]
    by_cases hf : (f.entity.handle == h) = true
    · rw [if_pos hf]
      have hfil : List.filter (fun f => f.entity.handle == h) [f] = [f] := by
        simp [List.filter_cons, hf]
      rw [hfil, ih cur]
      by_cases hg : f.is_generated = true
      · rw [updateHolder_generated _ f hg,
          holderSpec_concat_generated cur (List.filter (fun f => f.entity.handle == h) l)
            f hg]
      · have hg' : f.is_generated = false := by
          cases hfg : f.is_generated
          · rfl
          · exact absurd hfg hg
        rw [holderSpec_concat_manual cur (List.filter (fun f => f.entity.handle == h) l)
          f hg']
    · rw [if_neg hf]
      have hfil : List.filter (fun f => f.entity.handle == h) [f] = [] := by
        simp only [List.filter_cons, List.filter_nil]
        rw [if_neg hf]
      rw [hfil, List.append_nil, ih cur]

/-- Reading a mapped association list is reading the original and mapping
the value. -/
theorem dictLookup_map_value {α β : Type} (m : List (String × α)) (g : α → β)
    (k : String) :
    dictLookup (m.map (fun p => (p.1, g p.2))) k = (dictLookup m k).map g := by
  induction m with
  | nil => rfl
  | cons p rest ih =>
    by_cases hp : (p.1 == k) = true
    · simp [dictLookup, List.find?, hp]
    · have hp' : (p.1 == k) = false := by
        cases hb : (p.1 == k)
        · rfl
        · exact absurd hb hp
      simp only [List.map_cons, dictLookup, List.find?, hp']
      rw [dictLookup] at ih
      exact ih

/-- The loading pass keeps its keys unique. -/
theorem loadFold_keys_nodup (files : List DefFile) :
    ∀ st : List (String × (Entity × Bool)),
      (st.map (·.1)).Nodup → ((files.foldl loadStep st).map (·.1)).Nodup := by
  induction files with
  | nil => intro st h; exact h
  | cons f rest ih =>
    intro st hnd
    rw [List.foldl_cons]
    refine ih (loadStep st f) ?_
    rw [loadStep]
    split
    · rename_i hcur
      rw [dictInsert_keys]
      rw [if_neg ((dictLookup_eq_none st f.entity.handle).mp hcur)]
      simp only [List.nodup_append, List.nodup_cons, List.not_mem_nil,
        not_false_eq_true, List.nodup_nil, and_true, true_and]
      refine ⟨hnd, ?_⟩
      intro a ha hb
      simp only [List.mem_singleton] at hb
      subst hb
      exact (dictLookup_eq_none st f.entity.handle).mp ‹_› ha
    · rename_i a g0 hcur
      split
      · rw [dictInsert_keys]
        have hmem : f.entity.handle ∈ st.map (·.1) := by
          by_contra hab
          rw [← dictLookup_eq_none st f.entity.handle] at hab
          rw [hab] at hcur
          exact Option.noConfusion hcur
        rw [if_pos hmem]
        exact hnd
      · exact hnd

/-- C2: processed in order, the registry the loader builds holds exactly
one entity per handle — its keys never repeat — and for every handle that
entity is the one the claim's rules pick: the last generated file (base
filename equal to the handle) when one exists, since generated beats manual
and manual never displaces generated, otherwise the last file in sort
order. -/
theorem c2_registry_conflict_resolution (files : List DefFile) (h : String) :
    dictLookup (load_from_directory files) h = claimedWinner files h ∧
    ((load_from_directory files).map (·.1)).Nodup := by
  constructor
  · rw [load_from_directory]
    rw [dictLookup_map_value (files.foldl loadStep []) (fun v => v.1) h]
    have h0 : dictLookup ([] : List (String × (Entity × Bool))) h = none := rfl
    rw [loadFold_lookup files [] h, h0, chooseWinner_spec h files none]
    rw [claimedWinner, holderSpec]
    cases hlastg : ((files.filter (fun f => f.entity.handle == h)).filter
        DefFile.is_generated).getLast? with
    | some g => rfl
    | none =>
      cases hlast : (files.filter (fun f => f.entity.handle == h)).getLast? with
      | some f => rfl
      | none => rfl
  · rw [load_from_directory]
    have : ((files.foldl loadStep []).map (fun p => (p.1, p.2.1))).map (·.1) =
        (files.foldl loadStep []).map (·.1) := by
      rw [List.map_map]; rfl
    rw [this]
    exact loadFold_keys_nodup files [] (by simp)

/-- C6 witness: the amended mention-scan theorem applied to the spec's
three-persona registry and example message. -/
theorem c6_witness :
    WellFormedRegistry
      [("tomas", ⟨"tomas", "Tomas"⟩), ("anna", ⟨"anna", "Anna"⟩),
        ("carla", ⟨"carla", "Carla"⟩)] ∧
    (find_entity_by_mention
        [("tomas", ⟨"tomas", "Tomas"⟩), ("anna", ⟨"anna", "Anna"⟩),
          ("carla", ⟨"carla", "Carla"⟩)] "@Tomas hi @anna" =
      (([("tomas", ⟨"tomas", "Tomas"⟩), ("anna", ⟨"anna", "Anna"⟩),
          ("carla", ⟨"carla", "Carla"⟩)] : List (String × Entity)).filter
        (fun p => mention_hit p.1 "@Tomas hi @anna")).map (·.2) ∧
      (find_entity_by_mention
        [("tomas", ⟨"tomas", "Tomas"⟩), ("anna", ⟨"anna", "Anna"⟩),
          ("carla", ⟨"carla", "Carla"⟩)] "@Tomas hi @anna").Nodup ∧
      find_entity_by_mention
        [("tomas", ⟨"tomas", "Tomas"⟩), ("anna", ⟨"anna", "Anna"⟩),
          ("carla", ⟨"carla", "Carla"⟩)] "@Tomas hi @anna" =
        [⟨"tomas", "Tomas"⟩, ⟨"anna", "Anna"⟩]) :=
  ⟨⟨by decide, by decide⟩,
    c6_find_by_mention
      [("tomas", ⟨"tomas", "Tomas"⟩), ("anna", ⟨"anna", "Anna"⟩),
        ("carla", ⟨"carla", "Carla"⟩)] "@Tomas hi @anna" ⟨by decide, by decide⟩⟩

end DiscordEntities
